import Mathlib

/-!
Shallow embedding of the query-understanding and matching core of the
toyama-chat repository (src/lib/pharmacy.ts), together with theorems
settling the specification claims about it.

JavaScript strings are modelled as Lean `String` (operated on through
`String.data : List Char`); a JS object `Record<string, string>` is an
association list where, mirroring JS assignment order, the *last* binding
of a key wins.  `String.localeCompare(·, "ja")` is an environment-supplied
primitive and is modelled as an abstract comparator parameter
`cmp : String → String → Int`; `Array.prototype.sort`, which ECMAScript
requires to be stable, is modelled by the stable `List.mergeSort`.
-/

set_option maxHeartbeats 1000000

namespace ToyamaChat

open List

/-- One CSV row: association list from column header to cell value
(`Row = Record<string, string>` in pharmacy.ts, line 2). -/
abbrev Row := List (String × String)

/-- Lookup of `row[key]` in a JS object built by successive assignments:
the last binding of `key` wins; a missing key yields `none` (undefined). -/
def getField (row : Row) (key : String) : Option String :=
  (row.reverse.find? (fun p => p.1 == key)).map (·.2)

/-- Lookup `row[key] ?? ""` (undefined coalesced to the empty string). -/
def getFieldD (row : Row) (key : String) : String :=
  (getField row key).getD ""

/-! ### Character-list string primitives

Structural-recursion implementations of the JS string operations used by
pharmacy.ts, so that every definition evaluates inside the kernel. -/

/-- Whitespace test used by `trim` and `split(/\s+/)`: the ECMAScript
WhiteSpace and LineTerminator set (TAB, LF, VT, FF, CR, SP, NBSP, the
Ogham space mark, the U+2000 to U+200A spaces, LS, PS, NNBSP, MMSP, the
ideographic space U+3000 and the byte-order mark U+FEFF). -/
def wsChar (c : Char) : Bool :=
  c == ' ' || c == '\t' || c == '\n' || c == '\r' ||
  c == '\u000B' || c == '\u000C' || c == '\u00A0' || c == '\u1680' ||
  (0x2000 ≤ c.toNat && c.toNat ≤ 0x200A) ||
  c == '\u2028' || c == '\u2029' || c == '\u202F' || c == '\u205F' ||
  c == '\u3000' || c == '\uFEFF'

/-- JS `String.prototype.trim` on a character list. -/
def trimL (l : List Char) : List Char :=
  ((l.dropWhile wsChar).reverse.dropWhile wsChar).reverse

/-- JS `s.replace(/^"|"$/g, "")`: removes one leading double quote if
present, then one trailing double quote if present. -/
def stripOuterQuotesL (l : List Char) : List Char :=
  let l1 := if l.head? = some '"' then l.tail else l
  if l1.getLast? = some '"' then l1.dropLast else l1

/-- Cleaning applied by `parseCsv` to every header and data cell:
`v.trim().replace(/^"|"$/g, "")`. -/
def cleanFieldL (l : List Char) : List Char :=
  stripOuterQuotesL (trimL l)

/-- Build a `String` from a character list. -/
def strOf (l : List Char) : String := ⟨l⟩

/-- The cleaning of `parseCsv`, at `String` level. -/
def cleanField (s : String) : String := strOf (cleanFieldL s.data)

/-- JS `s.includes(pat)` on character lists (`pat` first). -/
def containsL (pat : List Char) : List Char → Bool
  | [] => pat.isEmpty
  | c :: cs => pat.isPrefixOf (c :: cs) || containsL pat cs

/-- JS `s.includes(pat)`. -/
def strIncludes (s pat : String) : Bool := containsL pat.data s.data

/-- Fuelled global literal replacement (JS `s.replace(new RegExp(lit, "g"), rep)`
for a literal pattern `lit`): scan left to right, non-overlapping, the
replacement text is not rescanned.  The fuel only serves to make the
recursion structural; each step consumes at least one character, so fuel
equal to the length of the scanned list never runs out. -/
def replaceFuel (pat rep : List Char) : Nat → List Char → List Char
  | 0, s => s
  | _ + 1, [] => []
  | fuel + 1, c :: cs =>
    if pat ≠ [] ∧ pat.isPrefixOf (c :: cs) then
      rep ++ replaceFuel pat rep fuel (List.drop (pat.length - 1) cs)
    else
      c :: replaceFuel pat rep fuel cs

/-- JS global literal replace on `String`. -/
def replaceAll (s pat rep : String) : String :=
  strOf (replaceFuel pat.data rep.data s.data.length s.data)

/-- Replace every character satisfying `p` by a space
(JS `s.replace(/[…]/g, " ")` for a character class). -/
def replaceChars (p : Char → Bool) (s : String) : String :=
  strOf (s.data.map (fun c => if p c then ' ' else c))

/-- Split a character list at every character satisfying `p`, keeping empty
segments (JS `split` on a single-character class; for `split(/\s+/)` the
empty segments are dropped by the callers' subsequent filters). -/
def splitAnyL (p : Char → Bool) : List Char → List (List Char)
  | [] => [[]]
  | c :: cs =>
    if p c then [] :: splitAnyL p cs
    else
      match splitAnyL p cs with
      | [] => [[c]]
      | s :: rest => (c :: s) :: rest

/-- Split a `String` at every character satisfying `p`. -/
def splitAny (p : Char → Bool) (s : String) : List String :=
  (splitAnyL p s.data).map strOf

/-- JS `s.replace(/(a1|a2|…)$/, "")`: remove the first listed alternative
that is a suffix (the alternatives used in pharmacy.ts are pairwise
exclusive as suffixes, so this matches the regex semantics). -/
def stripSuffix1 (alts : List String) (w : String) : String :=
  match alts.find? (fun a => a.data.isSuffixOf w.data) with
  | some a => strOf (w.data.take (w.data.length - a.data.length))
  | none => w

/-- Deduplication that keeps the first occurrence, as `[...new Set(tags)]`. -/
def dedupFirst (l : List String) : List String :=
  l.foldl (fun acc x => if acc.contains x then acc else acc ++ [x]) []

/-! ### CSV scanner (pharmacy.ts lines 237–311) -/

/-- Keep condition for a finished row:
`currentRow.length > 1 || (currentRow.length === 1 && currentRow[0] !== "")`. -/
def keepRow (r : List (List Char)) : Bool :=
  decide (1 < r.length ∨ (r.length = 1 ∧ r.headD [] ≠ []))

/-- The per-character CSV scan of `parseCsv`.  The scanned character list
comes first (the recursion is structural on it); `prev` is the previously
scanned character (`text[i-1]`), consulted only by the CRLF adjustment;
`inQ` is the `inQuotes` flag; `field` and `row` are the current field and
row accumulators; `rows` the finished rows. -/
def scanAux : List Char → Option Char → Bool → List Char →
    List (List Char) → List (List (List Char)) → List (List (List Char))
  | [], _, _, field, row, rows =>
    if field ≠ [] ∨ row ≠ [] then rows ++ [row ++ [field]] else rows
  | '"' :: '"' :: cs, _, inQ, field, row, rows =>
    if inQ then
      scanAux cs (some '"') true (field ++ ['"']) row rows
    else
      scanAux ('"' :: cs) (some '"') true field row rows
  | '"' :: cs, _, inQ, field, row, rows =>
    scanAux cs (some '"') (!inQ) field row rows
  | c :: cs, prev, inQ, field, row, rows =>
    if c = ',' ∧ inQ = false then
      scanAux cs (some c) inQ [] (row ++ [field]) rows
    else if (c = '\n' ∨ c = '\r') ∧ inQ = false then
      if c = '\n' ∧ prev = some '\r' then
        scanAux cs (some c) inQ field row rows
      else
        scanAux cs (some c) inQ [] []
          (if keepRow (row ++ [field]) then rows ++ [row ++ [field]] else rows)
    else
      scanAux cs (some c) inQ (field ++ [c]) row rows

/-- Raw rows of fields produced by the scan of `parseCsv`. -/
def csvRows (text : String) : List (List (List Char)) :=
  scanAux text.data none false [] [] []

/-- Record construction of `parseCsv`:
`headers.forEach((h, idx) => obj[h] = (cols[idx] ?? "").trim().replace(/^"|"$/g, ""))`. -/
def mkRecord (headers : List String) (cols : List (List Char)) : Row :=
  headers.enum.map (fun p => (p.2, strOf (cleanFieldL (cols.getD p.1 []))))

/-- Cleaned header row of a CSV text (`rows[0]` of the scan, each header
trimmed and outer-quote-stripped), empty when the scan produced no rows. -/
def csvHeaders (text : String) : List String :=
  match csvRows text with
  | [] => []
  | hdr :: _ => hdr.map (fun h => strOf (cleanFieldL h))

/-- The parser `parseCsv` of pharmacy.ts. -/
def parseCsv (text : String) : List Row :=
  match csvRows text with
  | [] => []
  | hdr :: rest =>
    let headers := hdr.map (fun h => strOf (cleanFieldL h))
    rest.map (fun cols => mkRecord headers cols)

/-! ### Static taxonomies (pharmacy.ts lines 40–99, 319, 412–421, 558–567) -/

/-- Service-tag taxonomy `SERVICE_TAGS`: canonical tag with keyword synonyms,
in source order (matching priority is the list order). -/
def SERVICE_TAGS : List (String × List String) :=
  [ ("オンライン", ["オンライン", "オンライン服薬指導", "オンライン診療"]),
    ("抗原", ["抗原", "抗原検査", "抗原検査キット", "検査キット", "検査薬",
              "コロナ", "コロナ検査", "インフル", "インフルエンザ"]),
    ("在宅", ["在宅", "訪問", "在宅医療", "往診", "訪問対応"]),
    ("麻薬", ["麻薬", "麻薬注射"]),
    ("無菌調剤", ["無菌", "無菌調剤", "無菌製剤"]),
    ("緊急避妊", ["避妊", "緊急避妊", "緊急避妊薬", "アフターピル",
                  "モーニングアフターピル", "ピル"]),
    ("土曜在宅", ["土曜在宅", "土曜日在宅", "土曜に在宅", "土曜日に在宅",
                  "土曜日 在宅対応", "土曜 在宅対応"]),
    ("土曜外来", ["土曜外来", "土曜日外来", "土曜に開いている薬局",
                  "土曜日に開いている薬局", "土曜日 開いている薬局"]) ]

/-- Weekday words protected by `tokenizeQuery` (`MUST_KEEP`), in source order. -/
def MUST_KEEP : List String :=
  ["日曜", "日曜日", "土曜", "土曜日", "祝日", "平日", "休日"]

/-- Boilerplate request phrases removed by `tokenizeQuery` (`stopPhrases`). -/
def stopPhrases : List String :=
  ["について教えて", "について知りたい", "について", "を教えて",
   "が知りたい", "知りたい", "教えて", "の店舗を知りたい", "の店舗"]

/-- Punctuation character class `[、。.,，]`. -/
def punctChar (c : Char) : Bool :=
  c == '、' || c == '。' || c == '.' || c == ',' || c == '，'

/-- Particle character class `[ではがをにへとってからまでよりへで]`
(duplicate characters in the source class collapse to a set). -/
def particleChar (c : Char) : Bool :=
  c == 'で' || c == 'は' || c == 'が' || c == 'を' || c == 'に' || c == 'へ' ||
  c == 'と' || c == 'っ' || c == 'て' || c == 'か' || c == 'ら' || c == 'ま' ||
  c == 'よ' || c == 'り'

/-- Generic nouns stripped by `tokenizeQuery` (`genericWords`), in source
order (「薬局」 is replaced before 「薬」). -/
def genericWords : List String := ["薬局", "店舗", "店", "薬"]

/-- Suffixes stripped from each raw word: `(エリア|地域|周辺|付近)$`. -/
def areaSuffixes : List String := ["エリア", "地域", "周辺", "付近"]

/-- Pure noise words dropped outright (`noiseWords`). -/
def noiseWords : List String := ["地域", "周辺", "近く", "あたり", "付近"]

/-- Administrative suffixes stripped from each word: `(市内|市|町|村|区)$`. -/
def adminSuffixes : List String := ["市内", "市", "町", "村", "区"]

/-- Weekday taxonomy `WEEKDAY_MAP`: canonical day with keyword synonyms. -/
def WEEKDAY_MAP : List (String × List String) :=
  [ ("月曜", ["月曜", "月曜日"]),
    ("火曜", ["火曜", "火曜日"]),
    ("水曜", ["水曜", "水曜日"]),
    ("木曜", ["木曜", "木曜日"]),
    ("金曜", ["金曜", "金曜日", "平日"]),
    ("土曜", ["土曜", "土曜日"]),
    ("日曜", ["日曜", "日曜日"]),
    ("祝日", ["祝日", "祭日"]) ]

/-- Drugstore chain names used by the drugstore filter (`DRUGSTORE_CHAINS`). -/
def DRUGSTORE_CHAINS : List String :=
  ["ウエルシア", "Vドラッグ", "Ｖドラッグ", "クスリのアオキ",
   "ドラッグセイムス", "シメノドラッグ", "スギ薬局", "マツモトキヨシ"]

/-! ### Tag helpers (pharmacy.ts lines 105–134) -/

/-- Splitting of a raw tag cell on 「;」「／」「、」 with trimming
(`parseTagList`; an empty or missing cell yields the empty list). -/
def parseTagList (raw : String) : List String :=
  ((splitAnyL (fun c => c == ';' || c == '／' || c == '、') raw.data).map
      (fun l => strOf (trimL l))).filter (fun s => s ≠ "")

/-- Search tags of a record (`getTags`): combined-tag column plus
day-suffixed tags from the outpatient and home-visit weekday columns,
deduplicated keeping first occurrences. -/
def getTags (row : Row) : List String :=
  let base := parseTagList (getFieldD row "総合タグ")
  let wOut := parseTagList (getFieldD row "曜日タグ_外来")
  let wHome := parseTagList (getFieldD row "曜日タグ_在宅")
  dedupFirst (base ++ wOut.map (fun day => day ++ "外来") ++
    wHome.map (fun day => day ++ "在宅"))

/-! ### Query tokenization and condition extraction (pharmacy.ts 315–493) -/

/-- The tokenizer `tokenizeQuery`: weekday protection, stop-phrase removal,
punctuation and particle blanking, generic-word removal, whitespace split,
suffix stripping, noise filtering. -/
def tokenizeQuery (qRaw : String) : List String :=
  let q1 := MUST_KEEP.foldl (fun q keep => replaceAll q keep (" " ++ keep ++ " ")) qRaw
  let q2 := stopPhrases.foldl (fun q p => replaceAll q p " ") q1
  let q3 := replaceChars punctChar q2
  let q4 := replaceChars particleChar q3
  let q5 := genericWords.foldl (fun q g => replaceAll q g " ") q4
  let rawWords :=
    ((splitAny wsChar q5).map (stripSuffix1 areaSuffixes)).filter (fun w => w ≠ "")
  ((rawWords.filter (fun w => ¬ noiseWords.contains w)).map
      (stripSuffix1 adminSuffixes)).filter (fun w => w ≠ "")

/-- The weekday detector `detectWeekday`: first taxonomy entry one of whose
keywords occurs in the word. -/
def detectWeekday (word : String) : Option String :=
  (WEEKDAY_MAP.find? (fun w => w.2.any (fun kw => strIncludes word kw))).map (·.1)

/-- The per-query condition set returned by `extractConditions`. -/
structure Conditions where
  requestedTags : List String
  freeWords : List String
  weekdayTags : List String
  hasDrugstoreWord : Bool
deriving DecidableEq, Repr

/-- Classification of one tokenized word (loop body of `extractConditions`):
weekday first, then drugstore keyword, then service tag, else free word. -/
def extractStep (acc : Conditions) (w : String) : Conditions :=
  match detectWeekday w with
  | some wd =>
    if acc.weekdayTags.contains wd then acc
    else { acc with weekdayTags := acc.weekdayTags ++ [wd] }
  | none =>
    if strIncludes w "ドラッグストア" || strIncludes w "ドラッグ" then
      { acc with hasDrugstoreWord := true }
    else
      match SERVICE_TAGS.find? (fun svc => svc.2.any (fun k => strIncludes w k)) with
      | some svc =>
        if acc.requestedTags.contains svc.1 then acc
        else { acc with requestedTags := acc.requestedTags ++ [svc.1] }
      | none => { acc with freeWords := acc.freeWords ++ [w] }

/-- The condition extractor `extractConditions`. -/
def extractConditions (qRaw : String) : Conditions :=
  (tokenizeQuery qRaw).foldl extractStep ⟨[], [], [], false⟩

/-! ### Search (pharmacy.ts lines 496–589) -/

/-- Haystack for the location filter: `` `${area} ${addr} ${name}` `` with
`area = row["地域"] ?? ""`, `addr = row["住所"] ?? row["所在地"] ?? ""`,
`name = row["薬局名"] ?? ""`. -/
def rowHaystack (row : Row) : String :=
  let area := getFieldD row "地域"
  let addr :=
    match getField row "住所" with
    | some v => v
    | none => getFieldD row "所在地"
  let name := getFieldD row "薬局名"
  area ++ " " ++ addr ++ " " ++ name

/-- The inner filter `filterOnce`: keep rows whose haystack contains every
word (a word must also be truthy, i.e. nonempty); an empty word list keeps
all rows. -/
def filterOnce (rows : List Row) (words : List String) : List Row :=
  if words.length = 0 then rows
  else rows.filter (fun row =>
    words.all (fun w => w ≠ "" && strIncludes (rowHaystack row) w))

/-- Step ① of `searchPharmacies`: location filter with relaxation
(lines 520–529): empty result with no words restarts from the full corpus;
empty result with words retries with only the first word. -/
def locationFilter (records : List Row) (addressWords : List String) : List Row :=
  let filtered := filterOnce records addressWords
  if filtered.length = 0 ∧ addressWords.length = 0 then records
  else if filtered.length = 0 ∧ 0 < addressWords.length then
    filterOnce records [addressWords.headD ""]
  else filtered

/-- Step ② of `searchPharmacies` (lines 532–537): if any service tags were
requested, keep only records whose derived tag set contains every one. -/
def tagFilterStep (requestedTags : List String) (l : List Row) : List Row :=
  if 0 < requestedTags.length then
    l.filter (fun row => requestedTags.all (fun tag => (getTags row).contains tag))
  else l

/-- Step ③ of `searchPharmacies` (lines 540–554): if any weekday tags were
requested, filter on the home-visit weekday column when 「在宅」 was among
the requested service tags, otherwise on the outpatient weekday column. -/
def weekdayFilterStep (needHome : Bool) (weekdayTags : List String)
    (l : List Row) : List Row :=
  if 0 < weekdayTags.length then
    if needHome then
      l.filter (fun row =>
        weekdayTags.all (fun wd => strIncludes (getFieldD row "曜日タグ_在宅") wd))
    else
      l.filter (fun row =>
        weekdayTags.all (fun wd => strIncludes (getFieldD row "曜日タグ_外来") wd))
  else l

/-- Step ③.5 of `searchPharmacies` (lines 557–573): when the query contained
a drugstore keyword, keep only records whose name contains a known chain. -/
def drugFilterStep (hasDrugstoreWord : Bool) (l : List Row) : List Row :=
  if hasDrugstoreWord then
    l.filter (fun row =>
      DRUGSTORE_CHAINS.any (fun kw => strIncludes (getFieldD row "薬局名") kw))
  else l

/-- Steps ①–③.5 of `searchPharmacies`: location, service-tag, weekday and
drugstore filters, before sorting. -/
def filteredPharmacies (records : List Row) (qRaw : String) : List Row :=
  let c := extractConditions qRaw
  drugFilterStep c.hasDrugstoreWord
    (weekdayFilterStep (c.requestedTags.contains "在宅") c.weekdayTags
      (tagFilterStep c.requestedTags
        (locationFilter records c.freeWords)))

/-- The sort comparator of step ④ (lines 576–586), parameterized by the
locale comparison `cmp` standing for `localeCompare(·, ·, "ja")`:
compare regions unless they are equal as strings, then compare names. -/
def jsCompare (cmp : String → String → Int) (a b : Row) : Int :=
  let areaA := getFieldD a "地域"
  let areaB := getFieldD b "地域"
  if areaA ≠ areaB then cmp areaA areaB
  else cmp (getFieldD a "薬局名") (getFieldD b "薬局名")

/-- The `le` relation a stable sort derives from the JS comparator:
`a` may stay before `b` iff the comparator is nonpositive. -/
def rowLe (cmp : String → String → Int) (a b : Row) : Bool :=
  jsCompare cmp a b ≤ 0

/-- Result of `searchPharmacies`: sorted records plus the extracted
requestedTags and freeWords. -/
structure SearchResult where
  result : List Row
  requestedTags : List String
  freeWords : List String
deriving DecidableEq, Repr

/-- The search `searchPharmacies`: extract conditions, filter, then sort a
copy of the filtered list with the stable JS array sort under the
region/name comparator. -/
def searchPharmacies (cmp : String → String → Int) (records : List Row)
    (qRaw : String) : SearchResult :=
  { result := (filteredPharmacies records qRaw).mergeSort (rowLe cmp)
    requestedTags := (extractConditions qRaw).requestedTags
    freeWords := (extractConditions qRaw).freeWords }

/-! ### Locale comparators

The JS `localeCompare(·, ·, "ja")` primitive is an environment-supplied
total-preorder comparator.  The ordering claims are proved for every
comparator that behaves as a (strict) linear-order comparator; `cmpStr`
is a concrete such comparator used by the witnesses. -/

/-- Lawfulness of a comparator: reflexively zero, total, transitive and
antisymmetric in its nonpositive part. -/
structure IsLinearCmp (cmp : String → String → Int) : Prop where
  refl : ∀ a, cmp a a = 0
  total : ∀ a b, cmp a b ≤ 0 ∨ cmp b a ≤ 0
  trans : ∀ a b c, cmp a b ≤ 0 → cmp b c ≤ 0 → cmp a c ≤ 0
  antisymm : ∀ a b, cmp a b ≤ 0 → cmp b a ≤ 0 → a = b

/-- A concrete comparator: the lexicographic order on strings. -/
def cmpStr (a b : String) : Int :=
  if a < b then -1 else if b < a then 1 else 0

lemma cmpStr_le_iff (a b : String) : cmpStr a b ≤ 0 ↔ a ≤ b := by
  unfold cmpStr
  rcases lt_trichotomy a b with h | h | h
  · simp [h, le_of_lt h, not_lt_of_lt h]
  · simp [h]
  · simp [h, not_lt_of_lt h, not_le.mpr h]

lemma isLinearCmp_cmpStr : IsLinearCmp cmpStr := by
  refine ⟨?_, ?_, ?_, ?_⟩
  · intro a; simp [cmpStr]
  · intro a b; rw [cmpStr_le_iff, cmpStr_le_iff]; exact le_total a b
  · intro a b c h1 h2
    rw [cmpStr_le_iff] at *
    exact le_trans h1 h2
  · intro a b h1 h2
    rw [cmpStr_le_iff] at *
    exact le_antisymm h1 h2

/-! ### Basic structural lemmas about the search pipeline -/

lemma filterOnce_sublist (rows : List Row) (ws : List String) :
    filterOnce rows ws <+ rows := by
  unfold filterOnce
  split
  · exact List.Sublist.refl _
  · exact List.filter_sublist _

lemma locationFilter_sublist (records : List Row) (ws : List String) :
    locationFilter records ws <+ records := by
  simp only [locationFilter]
  split
  · exact List.Sublist.refl _
  · split
    · exact filterOnce_sublist _ _
    · exact filterOnce_sublist _ _

lemma tagFilterStep_sublist (tags : List String) (l : List Row) :
    tagFilterStep tags l <+ l := by
  unfold tagFilterStep; split
  · exact List.filter_sublist _
  · exact List.Sublist.refl _

lemma weekdayFilterStep_sublist (nh : Bool) (wd : List String) (l : List Row) :
    weekdayFilterStep nh wd l <+ l := by
  unfold weekdayFilterStep
  split
  · split
    · exact List.filter_sublist _
    · exact List.filter_sublist _
  · exact List.Sublist.refl _

lemma drugFilterStep_sublist (flag : Bool) (l : List Row) :
    drugFilterStep flag l <+ l := by
  unfold drugFilterStep; split
  · exact List.filter_sublist _
  · exact List.Sublist.refl _

lemma filteredPharmacies_sublist (records : List Row) (q : String) :
    filteredPharmacies records q <+ records := by
  unfold filteredPharmacies
  exact ((drugFilterStep_sublist _ _).trans
    ((weekdayFilterStep_sublist _ _ _).trans
      ((tagFilterStep_sublist _ _).trans (locationFilter_sublist _ _))))

lemma mkRecord_keys (headers : List String) (cols : List (List Char)) :
    (mkRecord headers cols).map Prod.fst = headers := by
  unfold mkRecord
  rw [List.map_map]
  have : ∀ (n : Nat), (List.enumFrom n headers).map (Prod.fst ∘ fun p =>
      (p.2, strOf (cleanFieldL (cols.getD p.1 [])))) = headers := by
    intro n
    induction headers generalizing n with
    | nil => rfl
    | cons h t ih => simpa [List.enumFrom] using ih (n + 1)
  simpa [List.enum] using this 0

lemma rowLe_eq_true_iff (cmp : String → String → Int) (a b : Row) :
    rowLe cmp a b = true ↔ jsCompare cmp a b ≤ 0 := by
  simp [rowLe]

lemma rowLe_total {cmp : String → String → Int} (h : IsLinearCmp cmp)
    (a b : Row) : rowLe cmp a b || rowLe cmp b a := by
  rw [Bool.or_eq_true, rowLe_eq_true_iff, rowLe_eq_true_iff]
  unfold jsCompare
  by_cases hab : getFieldD a "地域" = getFieldD b "地域"
  · simp only [hab, ne_eq, not_true_eq_false, if_false, ite_not, if_pos rfl]
    exact h.total _ _
  · simp only [ne_eq, hab, not_false_eq_true, if_true, Ne.symm hab]
    exact h.total _ _

lemma rowLe_trans {cmp : String → String → Int} (h : IsLinearCmp cmp)
    (a b c : Row) : rowLe cmp a b → rowLe cmp b c → rowLe cmp a c := by
  intro h1 h2
  rw [rowLe_eq_true_iff] at h1 h2 ⊢
  unfold jsCompare at h1 h2 ⊢
  by_cases hab : getFieldD a "地域" = getFieldD b "地域" <;>
    by_cases hbc : getFieldD b "地域" = getFieldD c "地域" <;>
      by_cases hac : getFieldD a "地域" = getFieldD c "地域"
  · simp only [hab, hbc, ne_eq, not_true_eq_false, if_false, ite_not, if_pos rfl] at h1 h2 ⊢
    exact h.trans _ _ _ h1 h2
  · exact absurd (hab.trans hbc) hac
  · exact absurd (hab.symm.trans hac) hbc
  · simp only [hab, ne_eq, not_true_eq_false, if_false, ite_not, if_pos rfl] at h1
    simp only [ne_eq, hbc, not_false_eq_true, if_true] at h2
    simp only [ne_eq, hac, not_false_eq_true, if_true]
    rw [hab]; exact h2
  · exact absurd (hac.trans hbc.symm) hab
  · simp only [ne_eq, hab, not_false_eq_true, if_true] at h1
    simp only [ne_eq, hac, not_false_eq_true, if_true]
    rw [← hbc]; exact h1
  · simp only [ne_eq, hab, not_false_eq_true, if_true] at h1
    simp only [ne_eq, hbc, not_false_eq_true, if_true] at h2
    rw [← hac] at h2
    exact absurd (h.antisymm _ _ h1 h2) hab
  · simp only [ne_eq, hab, not_false_eq_true, if_true] at h1
    simp only [ne_eq, hbc, not_false_eq_true, if_true] at h2
    simp only [ne_eq, hac, not_false_eq_true, if_true]
    exact h.trans _ _ _ h1 h2

/-! ### Sample rows used by witnesses -/

/-- Sample record used by witnesses. -/
def rowA : Row :=
  [("薬局名", "あおい薬局"), ("地域", "呉羽"), ("電話番号", "076-111-1111")]

/-- Sample record sharing region and name with `rowA`. -/
def rowB : Row :=
  [("薬局名", "あおい薬局"), ("地域", "呉羽"), ("電話番号", "076-222-2222")]

/-! ### Claim C6 — result ordering -/

/-- C6: for every lawful locale comparator, record list and query, the
sequence returned by `searchPharmacies` is sorted ascending by the 地域
field under the comparator, with ties (equal 地域) additionally ordered by
the 薬局名 field; records missing a field are compared as the empty string
(`getFieldD` yields `""` for missing fields). -/
theorem claim_C6 (cmp : String → String → Int) (h : IsLinearCmp cmp)
    (records : List Row) (q : String) :
    (searchPharmacies cmp records q).result.Pairwise (fun a b =>
      cmp (getFieldD a "地域") (getFieldD b "地域") ≤ 0 ∧
      (getFieldD a "地域" = getFieldD b "地域" →
        cmp (getFieldD a "薬局名") (getFieldD b "薬局名") ≤ 0)) := by
  have hres : (searchPharmacies cmp records q).result
      = (filteredPharmacies records q).mergeSort (rowLe cmp) := rfl
  rw [hres]
  have hs : ((filteredPharmacies records q).mergeSort (rowLe cmp)).Pairwise
      (fun a b => rowLe cmp a b) :=
    List.sorted_mergeSort (rowLe_trans h) (rowLe_total h) (filteredPharmacies records q)
  refine List.Pairwise.imp ?_ hs
  intro a b hab
  rw [rowLe_eq_true_iff] at hab
  unfold jsCompare at hab
  by_cases heq : getFieldD a "地域" = getFieldD b "地域"
  · simp only [heq, ne_eq, not_true_eq_false, if_false, ite_not, if_pos rfl] at hab
    exact ⟨by rw [heq, h.refl], fun _ => hab⟩
  · simp only [ne_eq, heq, not_false_eq_true, if_true] at hab
    exact ⟨hab, fun hc => absurd hc heq⟩

/-- Witness for C6 at the concrete comparator `cmpStr`. -/
theorem claim_C6_witness :
    (searchPharmacies cmpStr [rowA, rowB] "呉羽").result.Pairwise (fun a b =>
      cmpStr (getFieldD a "地域") (getFieldD b "地域") ≤ 0 ∧
      (getFieldD a "地域" = getFieldD b "地域" →
        cmpStr (getFieldD a "薬局名") (getFieldD b "薬局名") ≤ 0)) :=
  claim_C6 cmpStr isLinearCmp_cmpStr [rowA, rowB] "呉羽"

/-! ### Claim C7 — sort stability -/

/-- C7: two records of the filtered set with identical 地域 and identical
薬局名 keep, in the sequence returned by `searchPharmacies`, the relative
order they have in the filtered set; and the filtered set itself preserves
the order of the input record list (it is a sublist of it). -/
theorem claim_C7 (cmp : String → String → Int) (h : IsLinearCmp cmp)
    (records : List Row) (q : String) (a b : Row)
    (harea : getFieldD a "地域" = getFieldD b "地域")
    (hname : getFieldD a "薬局名" = getFieldD b "薬局名")
    (hab : [a, b] <+ filteredPharmacies records q) :
    [a, b] <+ (searchPharmacies cmp records q).result ∧
    filteredPharmacies records q <+ records := by
  constructor
  · have hres : (searchPharmacies cmp records q).result
        = (filteredPharmacies records q).mergeSort (rowLe cmp) := rfl
    rw [hres]
    have hR : rowLe cmp a b = true := by
      rw [rowLe_eq_true_iff]
      unfold jsCompare
      simp [harea, hname, h.refl]
    exact List.sublist_mergeSort (rowLe_trans h) (rowLe_total h)
      (by simp [List.pairwise_cons, hR]) hab
  · exact filteredPharmacies_sublist _ _

/-- Witness for C7: two records identical in region and name, in a
two-record corpus, with the empty query. -/
theorem claim_C7_witness :
    [rowA, rowB] <+ (searchPharmacies cmpStr [rowA, rowB] "").result ∧
    filteredPharmacies [rowA, rowB] "" <+ [rowA, rowB] :=
  claim_C7 cmpStr isLinearCmp_cmpStr [rowA, rowB] "" rowA rowB
    (by decide) (by decide) (by decide)

/-! ### Claim C10 — read-only search, no fabrication -/

/-- C10: the result of `searchPharmacies` is a permutation of the filtered
set, which is a sublist of the input record list — so every returned record
is an element of the input, in particular nothing is fabricated.  (That the
input list and its records are left unchanged is immediate in this pure
embedding: the source mutates nothing, sorting a copy `[...filtered]`.) -/
theorem claim_C10 (cmp : String → String → Int) (records : List Row)
    (q : String) :
    ((searchPharmacies cmp records q).result).Perm (filteredPharmacies records q) ∧
    filteredPharmacies records q <+ records :=
  ⟨List.mergeSort_perm _ _, filteredPharmacies_sublist _ _⟩

/-! ### Claim C3 — totality and structured results -/

/-- C3: both core functions are total Lean functions (they are defined for
every input string), and their outputs are structured: every record
returned by `parseCsv` has exactly the cleaned header row as its key
sequence, and `searchPharmacies` returns at most as many records as it was
given, for every query including the empty and zero-token ones. -/
theorem claim_C3 (text q : String) (records : List Row)
    (cmp : String → String → Int) (rec : Row) (hrec : rec ∈ parseCsv text) :
    rec.map Prod.fst = csvHeaders text ∧
    (searchPharmacies cmp records q).result.length ≤ records.length := by
  constructor
  · unfold parseCsv at hrec
    unfold csvHeaders
    cases h : csvRows text with
    | nil => rw [h] at hrec; simp at hrec
    | cons hdr rest =>
      rw [h] at hrec
      simp only [List.mem_map] at hrec
      obtain ⟨cols, _, hcols⟩ := hrec
      rw [← hcols, mkRecord_keys]
  · have hres : (searchPharmacies cmp records q).result
        = (filteredPharmacies records q).mergeSort (rowLe cmp) := rfl
    rw [hres, List.length_mergeSort]
    exact (filteredPharmacies_sublist _ _).length_le

/-- Witness for C3 at a concrete CSV text, record, query and comparator. -/
theorem claim_C3_witness :
    [("h", "a")] ∈ parseCsv "h\na" ∧
    ([("h", "a")].map Prod.fst = csvHeaders "h\na" ∧
      (searchPharmacies cmpStr [rowA] "薬局").result.length ≤ [rowA].length) :=
  ⟨by decide, claim_C3 "h\na" "薬局" [rowA] cmpStr [("h", "a")] (by decide)⟩

/-! ### Claim C4 — location-filter relaxation -/

/-- C4: in `searchPharmacies`, an empty freeWords list keeps all records;
with a non-empty freeWords list whose full filter yields zero records the
filter is retried with only the first free word and that result is accepted
as is; a non-empty full filter result is kept unchanged. -/
theorem claim_C4 (records : List Row) (w : String) (ws : List String) :
    locationFilter records [] = records ∧
    (filterOnce records (w :: ws) = [] →
      locationFilter records (w :: ws) = filterOnce records [w]) ∧
    (filterOnce records (w :: ws) ≠ [] →
      locationFilter records (w :: ws) = filterOnce records (w :: ws)) := by
  refine ⟨?_, ?_, ?_⟩
  · simp [locationFilter, filterOnce]
  · intro h
    simp [locationFilter, h]
  · intro h
    have hlen : ¬ (filterOnce records (w :: ws)).length = 0 := by
      simpa [List.length_eq_zero] using h
    simp [locationFilter, hlen]

/-- Witness for C4: empty word list keeps the corpus; a non-matching word
relaxes to itself and yields the empty result. -/
theorem claim_C4_witness :
    locationFilter [rowA] [] = [rowA] ∧ locationFilter [rowA] ["東京"] = [] := by
  refine ⟨(claim_C4 [rowA] "東京" []).1, ?_⟩
  rw [(claim_C4 [rowA] "東京" []).2.1 (by decide)]
  decide

lemma tagFilterStep_subset_sublist {t1 t2 : List String} (hsub : t1 ⊆ t2)
    (l : List Row) : tagFilterStep t2 l <+ tagFilterStep t1 l := by
  unfold tagFilterStep
  by_cases h2 : 0 < t2.length
  · by_cases h1 : 0 < t1.length
    · simp only [h1, h2, if_true]
      refine List.monotone_filter_right l ?_
      intro row hrow
      rw [List.all_eq_true] at hrow ⊢
      exact fun t ht => hrow t (hsub ht)
    · simp only [h1, h2, if_true, if_false]
      exact List.filter_sublist _
  · have ht2 : t2 = [] := by
      cases t2 with
      | nil => rfl
      | cons x xs => simp at h2
    subst ht2
    have ht1 : t1 = [] := List.eq_nil_iff_forall_not_mem.mpr
      (fun x hx => (List.not_mem_nil x) (hsub hx))
    subst ht1
    simp

lemma weekdayFilterStep_mono (nh : Bool) (wd : List String) {l1 l2 : List Row}
    (h : l2 <+ l1) : weekdayFilterStep nh wd l2 <+ weekdayFilterStep nh wd l1 := by
  unfold weekdayFilterStep
  split
  · split
    · exact h.filter _
    · exact h.filter _
  · exact h

lemma drugFilterStep_mono (flag : Bool) {l1 l2 : List Row} (h : l2 <+ l1) :
    drugFilterStep flag l2 <+ drugFilterStep flag l1 := by
  unfold drugFilterStep
  split
  · exact h.filter _
  · exact h

/-! ### Claim C1 — search monotonicity -/

/-- Record exhibiting the failure of unrestricted tag monotonicity: open for
home visits on Saturday but with an empty outpatient weekday column. -/
def rowC1 : Row := [("薬局名", "A"), ("曜日タグ_在宅", "土曜"), ("総合タグ", "在宅")]

/-- C1, counterexample: the queries 「土曜」 and 「土曜 在宅」 extract equal
freeWords, weekdayTags and drugstore flag, and the requestedTags of the
first are a subset of those of the second, yet the second query returns
strictly more records — adding the requested tag 「在宅」 flips the weekday
filter from the outpatient column to the home-visit column. -/
theorem claim_C1_counterexample :
    (extractConditions "土曜").requestedTags ⊆ (extractConditions "土曜 在宅").requestedTags ∧
    (extractConditions "土曜 在宅").freeWords = (extractConditions "土曜").freeWords ∧
    (extractConditions "土曜 在宅").weekdayTags = (extractConditions "土曜").weekdayTags ∧
    (extractConditions "土曜 在宅").hasDrugstoreWord = (extractConditions "土曜").hasDrugstoreWord ∧
    (searchPharmacies (fun _ _ => 0) [rowC1] "土曜").result.length
      < (searchPharmacies (fun _ _ => 0) [rowC1] "土曜 在宅").result.length := by
  refine ⟨by decide, by decide, by decide, by decide, ?_⟩
  have h1 : (searchPharmacies (fun _ _ => 0) [rowC1] "土曜").result.length
      = (filteredPharmacies [rowC1] "土曜").length := List.length_mergeSort _
  have h2 : (searchPharmacies (fun _ _ => 0) [rowC1] "土曜 在宅").result.length
      = (filteredPharmacies [rowC1] "土曜 在宅").length := List.length_mergeSort _
  rw [h1, h2]
  decide

/-- C1, amended: adding requestedTags never increases the result count,
with the other extracted conditions held equal, *provided the two queries
also agree on whether 「在宅」 is among the requested tags* (since that
membership selects which weekday column the weekday filter consults). -/
theorem claim_C1_amended (cmp : String → String → Int) (records : List Row)
    (q1 q2 : String)
    (htags : (extractConditions q1).requestedTags ⊆ (extractConditions q2).requestedTags)
    (hfree : (extractConditions q2).freeWords = (extractConditions q1).freeWords)
    (hwd : (extractConditions q2).weekdayTags = (extractConditions q1).weekdayTags)
    (hdrug : (extractConditions q2).hasDrugstoreWord = (extractConditions q1).hasDrugstoreWord)
    (hhome : (extractConditions q2).requestedTags.contains "在宅"
      = (extractConditions q1).requestedTags.contains "在宅") :
    (searchPharmacies cmp records q2).result.length
      ≤ (searchPharmacies cmp records q1).result.length := by
  have h1 : (searchPharmacies cmp records q1).result.length
      = (filteredPharmacies records q1).length := List.length_mergeSort _
  have h2 : (searchPharmacies cmp records q2).result.length
      = (filteredPharmacies records q2).length := List.length_mergeSort _
  rw [h1, h2]
  apply List.Sublist.length_le
  simp only [filteredPharmacies]
  rw [hfree, hwd, hdrug, hhome]
  exact drugFilterStep_mono _ (weekdayFilterStep_mono _ _
    (tagFilterStep_subset_sublist htags _))

/-- Witness for the amended C1: 「在宅」 versus 「在宅 抗原」, which agree on
the 「在宅」 membership, on a one-record corpus. -/
theorem claim_C1_amended_witness :
    (searchPharmacies cmpStr [rowC1] "在宅 抗原").result.length
      ≤ (searchPharmacies cmpStr [rowC1] "在宅").result.length :=
  claim_C1_amended cmpStr [rowC1] "在宅" "在宅 抗原"
    (by decide) (by decide) (by decide) (by decide) (by decide)

/-! ### Claim C8 — end-to-end scenario -/

/-- The record of Scenario 1. -/
def rowC8 : Row :=
  [("薬局名", "さくら薬局本店"), ("地域", "呉羽"), ("総合タグ", "在宅;抗原")]

/-- C8: the corpus `[rowC8]` with query 「呉羽 在宅」 yields exactly that
record, with requestedTags `["在宅"]` and freeWords `["呉羽"]`, for every
locale comparator. -/
theorem claim_C8 (cmp : String → String → Int) :
    searchPharmacies cmp [rowC8] "呉羽 在宅"
      = ⟨[rowC8], ["在宅"], ["呉羽"]⟩ := by
  have hf : filteredPharmacies [rowC8] "呉羽 在宅" = [rowC8] := by decide
  have hc : extractConditions "呉羽 在宅" = ⟨["在宅"], ["呉羽"], [], false⟩ := by decide
  unfold searchPharmacies
  rw [hf, hc, List.mergeSort_singleton]

/-! ### Claim C9 — weekday protection splits compound weekday words -/

/-- Record whose name contains the residual free word 「日」. -/
def rowC9a : Row :=
  [("薬局名", "日本橋薬局"), ("地域", "A"), ("曜日タグ_外来", "土曜")]

/-- Record whose haystack does not contain 「日」. -/
def rowC9b : Row :=
  [("薬局名", "X"), ("地域", "B"), ("曜日タグ_外来", "土曜")]

/-- C9: tokenizing 「土曜日」 yields the two words `["土曜", "日"]` (the
weekday protection wraps the earlier `MUST_KEEP` entry 「土曜」 in spaces
inside 「土曜日」), `extractConditions` turns them into weekdayTags
`["土曜"]` and freeWords `["日"]`, and the residual 「日」 acts as a
location word: of two records open Saturday, only the one whose haystack
contains 「日」 survives. -/
theorem claim_C9 (cmp : String → String → Int) :
    tokenizeQuery "土曜日" = ["土曜", "日"] ∧
    (extractConditions "土曜日").weekdayTags = ["土曜"] ∧
    (extractConditions "土曜日").freeWords = ["日"] ∧
    (searchPharmacies cmp [rowC9a, rowC9b] "土曜日").result = [rowC9a] := by
  refine ⟨by decide, by decide, by decide, ?_⟩
  have hf : filteredPharmacies [rowC9a, rowC9b] "土曜日" = [rowC9a] := by decide
  show (filteredPharmacies [rowC9a, rowC9b] "土曜日").mergeSort (rowLe cmp) = [rowC9a]
  rw [hf, List.mergeSort_singleton]

/-! ### Single-step reduction lemmas for the CSV scanner -/

lemma scanAux_quote_escape (cs : List Char) (prev : Option Char) (field : List Char)
    (row : List (List Char)) (rows : List (List (List Char))) :
    scanAux ('"' :: '"' :: cs) prev true field row rows
      = scanAux cs (some '"') true (field ++ ['"']) row rows := rfl

lemma scanAux_quote_open (t : List Char) (prev : Option Char) (field : List Char)
    (row : List (List Char)) (rows : List (List (List Char))) :
    scanAux ('"' :: t) prev false field row rows
      = scanAux t (some '"') true field row rows := by
  cases t with
  | nil => rfl
  | cons r rs =>
    by_cases hr : r = '"'
    · subst hr; rfl
    · rw [scanAux.eq_def]
      simp [hr]

lemma scanAux_quote_close (cs : List Char) (prev : Option Char) (field : List Char)
    (row : List (List Char)) (rows : List (List (List Char))) (h : cs.head? ≠ some '"') :
    scanAux ('"' :: cs) prev true field row rows
      = scanAux cs (some '"') false field row rows := by
  cases cs with
  | nil => rfl
  | cons r rs =>
    have hr : r ≠ '"' := by simpa using h
    rw [scanAux.eq_def]
    simp [hr]

lemma scanAux_comma (cs : List Char) (prev : Option Char) (field : List Char)
    (row : List (List Char)) (rows : List (List (List Char))) :
    scanAux (',' :: cs) prev false field row rows
      = scanAux cs (some ',') false [] (row ++ [field]) rows := rfl

lemma scanAux_cr (cs : List Char) (prev : Option Char) (field : List Char)
    (row : List (List Char)) (rows : List (List (List Char))) :
    scanAux ('\r' :: cs) prev false field row rows
      = scanAux cs (some '\r') false [] []
          (if keepRow (row ++ [field]) then rows ++ [row ++ [field]] else rows) := rfl

lemma scanAux_lf_after_cr (cs : List Char) (field : List Char)
    (row : List (List Char)) (rows : List (List (List Char))) :
    scanAux ('\n' :: cs) (some '\r') false field row rows
      = scanAux cs (some '\n') false field row rows := rfl

lemma scanAux_lf (cs : List Char) (prev : Option Char) (field : List Char)
    (row : List (List Char)) (rows : List (List (List Char))) (h : prev ≠ some '\r') :
    scanAux ('\n' :: cs) prev false field row rows
      = scanAux cs (some '\n') false [] []
          (if keepRow (row ++ [field]) then rows ++ [row ++ [field]] else rows) := by
  rw [scanAux.eq_def]
  simp [h]

lemma scanAux_default (c : Char) (cs : List Char) (prev : Option Char) (inQ : Bool)
    (field : List Char) (row : List (List Char)) (rows : List (List (List Char)))
    (h1 : c ≠ '"') (h2 : c ≠ ',') (h3 : c ≠ '\n') (h4 : c ≠ '\r') :
    scanAux (c :: cs) prev inQ field row rows
      = scanAux cs (some c) inQ (field ++ [c]) row rows := by
  rw [scanAux.eq_def]
  simp [h1, h2, h3, h4]

lemma scanAux_inq (c : Char) (cs : List Char) (prev : Option Char)
    (field : List Char) (row : List (List Char)) (rows : List (List (List Char)))
    (h1 : c ≠ '"') :
    scanAux (c :: cs) prev true field row rows
      = scanAux cs (some c) true (field ++ [c]) row rows := by
  rw [scanAux.eq_def]
  simp [h1]

/-! ### Claim C5 — CSV row-count invariant -/

/-- Joining of segments with a separator (used to build CSV texts). -/
def joinSepL (sep : List Char) : List (List Char) → List Char
  | [] => []
  | [x] => x
  | x :: xs => x ++ sep ++ joinSepL sep xs

/-- Comma test matching the scanner's field separator. -/
def isComma (c : Char) : Bool := c == ','

/-- A plain CSV line: no double quote and no line terminator in it
(commas are allowed and act as field separators). -/
def goodLineL (l : List Char) : Prop :=
  ∀ c ∈ l, c ≠ '"' ∧ c ≠ '\n' ∧ c ≠ '\r'

/-- Cells of a partially accumulated line: the first segment of `l` extends
the already accumulated `field`. -/
def consCells (field l : List Char) : List (List Char) :=
  match splitAnyL isComma l with
  | [] => [field]
  | s :: ss => (field ++ s) :: ss

lemma splitAnyL_ne_nil (p : Char → Bool) (l : List Char) : splitAnyL p l ≠ [] := by
  cases l with
  | nil => simp [splitAnyL]
  | cons c cs =>
    unfold splitAnyL
    split
    · simp
    · split <;> simp

lemma consCells_nil_left (l : List Char) : consCells [] l = splitAnyL isComma l := by
  unfold consCells
  cases h : splitAnyL isComma l with
  | nil => exact absurd h (splitAnyL_ne_nil _ _)
  | cons s ss => simp

lemma consCells_comma (field : List Char) (cs : List Char) :
    consCells field (',' :: cs) = field :: splitAnyL isComma cs := by
  unfold consCells
  rw [show splitAnyL isComma (',' :: cs) = [] :: splitAnyL isComma cs from rfl]
  simp

lemma consCells_push (field : List Char) (c : Char) (cs : List Char)
    (hc : ¬ isComma c) :
    consCells field (c :: cs) = consCells (field ++ [c]) cs := by
  have hsplit : splitAnyL isComma (c :: cs)
      = match splitAnyL isComma cs with
        | [] => [[c]]
        | s :: rest => (c :: s) :: rest := by
    rw [show splitAnyL isComma (c :: cs)
        = if isComma c = true then [] :: splitAnyL isComma cs
          else match splitAnyL isComma cs with
            | [] => [[c]]
            | s :: rest => (c :: s) :: rest from rfl, if_neg hc]
  unfold consCells
  rw [hsplit]
  cases h : splitAnyL isComma cs with
  | nil => exact absurd h (splitAnyL_ne_nil _ _)
  | cons s ss =>
    show (field ++ (c :: s)) :: ss = ((field ++ [c]) ++ s) :: ss
    rw [List.append_cons]

lemma splitAnyL_single_or_long (p : Char → Bool) (l : List Char) :
    splitAnyL p l = [l] ∨ 1 < (splitAnyL p l).length := by
  induction l with
  | nil => left; rfl
  | cons c cs ih =>
    unfold splitAnyL
    by_cases hc : p c
    · right
      simp only [hc, if_true, List.length_cons]
      have := splitAnyL_ne_nil p cs
      cases h : splitAnyL p cs with
      | nil => exact absurd h this
      | cons s ss => simp
    · simp only [hc, if_false]
      cases h : splitAnyL p cs with
      | nil => exact absurd h (splitAnyL_ne_nil p cs)
      | cons s ss =>
        rcases ih with h1 | h1
        · left
          rw [h] at h1
          obtain ⟨hs, hss⟩ := by simpa using h1
          simp [hs, hss]
        · right
          rw [h] at h1
          simpa using h1

lemma keepRow_splitAnyL (l : List Char) (hne : l ≠ []) :
    keepRow (splitAnyL isComma l) = true := by
  rcases splitAnyL_single_or_long isComma l with h | h
  · rw [h]
    simp [keepRow, hne]
  · simp [keepRow]
    omega

/-- Consuming one plain line and its `'\n'` terminator: the accumulated row
is closed, kept iff `keepRow` holds, and scanning resumes cleanly. -/
lemma scanAux_goodLine_lf (l : List Char) (rest : List Char) (prev : Option Char)
    (field : List Char) (row : List (List Char)) (rows : List (List (List Char)))
    (hl : goodLineL l) (hprev : prev ≠ some '\r') :
    scanAux (l ++ '\n' :: rest) prev false field row rows
      = scanAux rest (some '\n') false [] []
          (if keepRow (row ++ consCells field l)
            then rows ++ [row ++ consCells field l] else rows) := by
  induction l generalizing prev field row with
  | nil =>
    rw [List.nil_append, scanAux_lf _ _ _ _ _ hprev,
      show consCells field [] = [field] from by simp [consCells, splitAnyL]]
  | cons c cs ih =>
    obtain ⟨hq, hn, hr⟩ := hl c (List.mem_cons_self c cs)
    have hcs : goodLineL cs := fun x hx => hl x (List.mem_cons_of_mem c hx)
    by_cases hco : c = ','
    · subst hco
      rw [List.cons_append, scanAux_comma,
        ih (some ',') [] (row ++ [field]) hcs (by decide), consCells_comma]
      simp [consCells_nil_left]
    · rw [List.cons_append, scanAux_default c _ _ _ _ _ _ hq hco hn hr,
        ih (some c) (field ++ [c]) row hcs (by simpa using hr),
        consCells_push field c cs (by simp [isComma, hco])]

/-- Consuming a final plain line with no terminator: the last row is pushed
unconditionally, provided something was accumulated. -/
lemma scanAux_goodLine_end (l : List Char) (prev : Option Char)
    (field : List Char) (row : List (List Char)) (rows : List (List (List Char)))
    (hl : goodLineL l) (hne : field ≠ [] ∨ row ≠ [] ∨ l ≠ []) :
    scanAux l prev false field row rows = rows ++ [row ++ consCells field l] := by
  induction l generalizing prev field row with
  | nil =>
    have : field ≠ [] ∨ row ≠ [] := by
      rcases hne with h | h | h
      · exact Or.inl h
      · exact Or.inr h
      · exact absurd rfl h
    show (if field ≠ [] ∨ row ≠ [] then rows ++ [row ++ [field]] else rows) = _
    rw [if_pos this,
      show consCells field [] = [field] from by simp [consCells, splitAnyL]]
  | cons c cs ih =>
    obtain ⟨hq, hn, hr⟩ := hl c (List.mem_cons_self c cs)
    have hcs : goodLineL cs := fun x hx => hl x (List.mem_cons_of_mem c hx)
    by_cases hco : c = ','
    · subst hco
      rw [scanAux_comma, ih (some ',') [] (row ++ [field])
        hcs (Or.inr (Or.inl (by simp))), consCells_comma]
      simp [consCells_nil_left]
    · rw [scanAux_default c _ _ _ _ _ _ hq hco hn hr,
        ih (some c) (field ++ [c]) row hcs (Or.inl (by simp)),
        consCells_push field c cs (by simp [isComma, hco])]

/-- Trailing blank lines are dropped. -/
lemma scanAux_blank_tail (k : Nat) (prev : Option Char)
    (rows : List (List (List Char))) (hprev : prev ≠ some '\r') :
    scanAux (List.replicate k '\n') prev false [] [] rows = rows := by
  induction k generalizing prev with
  | zero => simp [scanAux]
  | succ n ih =>
    rw [List.replicate_succ, scanAux_lf _ _ _ _ _ hprev,
      show keepRow ([] ++ [([] : List Char)]) = false from by decide]
    simp only [Bool.false_eq_true, if_false]
    exact ih (some '\n') (by decide)

/-- Scanning a sequence of non-blank plain lines joined by `'\n'`, followed
by `k` blank lines, appends exactly their comma-split rows. -/
lemma scanAux_goodLines (ls : List (List Char)) (k : Nat) (prev : Option Char)
    (rows : List (List (List Char))) (hprev : prev ≠ some '\r')
    (hls : ∀ l ∈ ls, goodLineL l ∧ l ≠ []) :
    scanAux (joinSepL ['\n'] ls ++ List.replicate k '\n') prev false [] [] rows
      = rows ++ ls.map (fun l => splitAnyL isComma l) := by
  induction ls generalizing prev rows with
  | nil =>
    rw [show joinSepL ['\n'] [] = [] from rfl, List.nil_append,
      scanAux_blank_tail k prev rows hprev]
    simp
  | cons l ls ih =>
    obtain ⟨hgood, hne⟩ := hls l (List.mem_cons_self l ls)
    cases ls with
    | nil =>
      rw [show joinSepL ['\n'] [l] = l from rfl]
      cases k with
      | zero =>
        rw [List.replicate_zero, List.append_nil,
          scanAux_goodLine_end l prev [] [] rows hgood (Or.inr (Or.inr hne))]
        simp [consCells_nil_left]
      | succ n =>
        rw [List.replicate_succ, scanAux_goodLine_lf l _ prev [] [] rows hgood hprev]
        rw [List.nil_append, consCells_nil_left, if_pos (keepRow_splitAnyL l hne)]
        rw [scanAux_blank_tail n (some '\n') _ (by simp)]
        simp
    | cons l2 ls2 =>
      rw [show joinSepL ['\n'] (l :: l2 :: ls2)
          = l ++ '\n' :: joinSepL ['\n'] (l2 :: ls2) from by
        show l ++ ['\n'] ++ joinSepL ['\n'] (l2 :: ls2) = _
        simp]
      rw [List.append_assoc, List.cons_append,
        scanAux_goodLine_lf l _ prev [] [] rows hgood hprev]
      rw [List.nil_append, consCells_nil_left, if_pos (keepRow_splitAnyL l hne)]
      rw [ih (some '\n') _ (by simp) (fun x hx => hls x (List.mem_cons_of_mem l hx))]
      simp

lemma data_eq_nil_iff (s : String) : s.data = [] ↔ s = "" := by
  constructor
  · intro h
    exact String.ext (h.trans rfl)
  · intro h; subst h; rfl

/-- A plain CSV line at `String` level. -/
def goodLine (s : String) : Prop := goodLineL s.data

/-- C5: a CSV text made of a header line and `N` non-blank plain data lines
joined by `'\n'`, followed by any number of blank trailing lines (covering
both a terminated and an unterminated final row), parses to exactly `N`
records. -/
theorem claim_C5 (hdrLine : String) (dataLines : List String) (k : Nat)
    (hhdr : goodLine hdrLine ∧ hdrLine ≠ "")
    (hdata : ∀ l ∈ dataLines, goodLine l ∧ l ≠ "") :
    (parseCsv (strOf (joinSepL ['\n'] ((hdrLine :: dataLines).map String.data)
        ++ List.replicate k '\n'))).length = dataLines.length := by
  have hscan : csvRows (strOf (joinSepL ['\n'] ((hdrLine :: dataLines).map String.data)
      ++ List.replicate k '\n'))
      = ((hdrLine :: dataLines).map String.data).map (fun l => splitAnyL isComma l) := by
    unfold csvRows
    rw [show (strOf (joinSepL ['\n'] ((hdrLine :: dataLines).map String.data)
        ++ List.replicate k '\n')).data
      = joinSepL ['\n'] ((hdrLine :: dataLines).map String.data)
        ++ List.replicate k '\n' from rfl]
    rw [scanAux_goodLines _ k none [] (by simp) ?_]
    · simp
    · intro l hl
      simp only [List.mem_map] at hl
      obtain ⟨s, hs, rfl⟩ := hl
      rcases List.mem_cons.mp hs with rfl | hs'
      · exact ⟨hhdr.1, fun h => hhdr.2 ((data_eq_nil_iff s).mp h)⟩
      · exact ⟨(hdata s hs').1, fun h => (hdata s hs').2 ((data_eq_nil_iff s).mp h)⟩
  unfold parseCsv
  rw [hscan]
  simp

/-- Witness for C5 at a concrete two-data-row CSV with a blank trailing
line and extra blank lines. -/
theorem claim_C5_witness :
    ((goodLine "名前,地域" ∧ "名前,地域" ≠ "") ∧
      (∀ l ∈ ["あ,呉羽", "い,水橋"], goodLine l ∧ l ≠ "")) ∧
    (parseCsv (strOf (joinSepL ['\n']
        ((["名前,地域", "あ,呉羽", "い,水橋"] : List String).map String.data)
        ++ List.replicate 2 '\n'))).length = 2 := by
  refine ⟨⟨⟨?_, by decide⟩, ?_⟩, ?_⟩
  · intro c hc
    fin_cases hc <;> decide
  · intro l hl
    fin_cases hl <;>
      exact ⟨fun c hc => by fin_cases hc <;> decide, by decide⟩
  · exact claim_C5 "名前,地域" ["あ,呉羽", "い,水橋"] 2
      ⟨fun c hc => by fin_cases hc <;> decide, by decide⟩
      (fun l hl => by
        fin_cases hl <;>
          exact ⟨fun c hc => by fin_cases hc <;> decide, by decide⟩)

/-! ### Claim C2 — CSV round-trip (RFC4180 serialization) -/

/-- RFC4180 escaping of a cell: double every inner double quote. -/
def escapeL : List Char → List Char
  | [] => []
  | c :: cs => if c = '"' then '"' :: '"' :: escapeL cs else c :: escapeL cs

/-- RFC4180 quoting of a cell: enclose the escaped cell in double quotes. -/
def quoteFieldL (c : List Char) : List Char := '"' :: (escapeL c ++ ['"'])

/-- One serialized CSV line: quoted cells joined with commas. -/
def csvLineL (r : List (List Char)) : List Char := joinSepL [','] (r.map quoteFieldL)

/-- RFC4180 serialization of a table: quoted lines joined with CRLF,
no trailing terminator. -/
def rfc4180 (rows : List (List String)) : String :=
  strOf (joinSepL ['\r', '\n'] (rows.map (fun r => csvLineL (r.map String.data))))

lemma escape_scan (c : List Char) (rest : List Char) (prev : Option Char)
    (field : List Char) (row : List (List Char)) (rows : List (List (List Char)))
    (h : rest.head? ≠ some '"') :
    scanAux (escapeL c ++ '"' :: rest) prev true field row rows
      = scanAux rest (some '"') false (field ++ c) row rows := by
  induction c generalizing prev field with
  | nil =>
    rw [show escapeL [] = [] from rfl, List.nil_append,
      scanAux_quote_close rest prev field row rows h, List.append_nil]
  | cons ch c' ih =>
    by_cases hch : ch = '"'
    · subst hch
      rw [show escapeL ('"' :: c') = '"' :: '"' :: escapeL c' from by simp [escapeL],
        List.cons_append, List.cons_append, scanAux_quote_escape,
        ih (some '"') (field ++ ['"'])]
      simp
    · rw [show escapeL (ch :: c') = ch :: escapeL c' from by simp [escapeL, hch],
        List.cons_append, scanAux_inq ch _ _ _ _ _ hch, ih (some ch) (field ++ [ch])]
      simp

lemma quoteField_scan (c : List Char) (rest : List Char) (prev : Option Char)
    (field : List Char) (row : List (List Char)) (rows : List (List (List Char)))
    (h : rest.head? ≠ some '"') :
    scanAux (quoteFieldL c ++ rest) prev false field row rows
      = scanAux rest (some '"') false (field ++ c) row rows := by
  rw [show quoteFieldL c ++ rest = '"' :: (escapeL c ++ '"' :: rest) from by
      simp [quoteFieldL],
    scanAux_quote_open, escape_scan c rest _ _ _ _ h]

/-- Cells of a line being accumulated: `(cellsAcc acc r).1` are the closed
cells, `(cellsAcc acc r).2` the still-open last field. -/
def cellsAcc : List Char → List (List Char) → List (List Char) × List Char
  | acc, [] => ([], acc)
  | acc, d :: r => ((cellsAcc d r).1.cons acc, (cellsAcc d r).2)

lemma cellsAcc_spec (r : List (List Char)) (acc : List Char) :
    (cellsAcc acc r).1 ++ [(cellsAcc acc r).2] = acc :: r := by
  induction r generalizing acc with
  | nil => rfl
  | cons d r' ih => simp [cellsAcc, ih d]

lemma line_scan (r : List (List Char)) (c0 : List Char) (rest : List Char)
    (prev : Option Char) (field : List Char) (row : List (List Char))
    (rows : List (List (List Char))) (h : rest.head? ≠ some '"') :
    scanAux (csvLineL (c0 :: r) ++ rest) prev false field row rows
      = scanAux rest (some '"') false (cellsAcc (field ++ c0) r).2
          (row ++ (cellsAcc (field ++ c0) r).1) rows := by
  induction r generalizing c0 prev field row with
  | nil =>
    rw [show csvLineL [c0] = quoteFieldL c0 from rfl,
      quoteField_scan c0 rest prev field row rows h]
    simp [cellsAcc]
  | cons d r' ih =>
    rw [show csvLineL (c0 :: d :: r') = quoteFieldL c0 ++ ',' :: csvLineL (d :: r') from by
        show joinSepL [','] (quoteFieldL c0 :: quoteFieldL d :: r'.map quoteFieldL) = _
        show quoteFieldL c0 ++ [','] ++ joinSepL [','] (quoteFieldL d :: r'.map quoteFieldL) = _
        simp [csvLineL],
      List.append_assoc, List.cons_append,
      quoteField_scan c0 _ _ _ _ _ (by simp),
      scanAux_comma, ih d (some ',') [] (row ++ [field ++ c0])]
    simp [cellsAcc, List.append_assoc]

lemma keepRow_cons (c0 : List Char) (cells : List (List Char))
    (hne : ¬(c0 = [] ∧ cells = [])) : keepRow (c0 :: cells) = true := by
  cases cells with
  | nil =>
    have hc0 : c0 ≠ [] := fun h => hne ⟨h, rfl⟩
    simp [keepRow, hc0]
  | cons d ds =>
    simp [keepRow]

lemma row_scan_crlf (cells : List (List Char)) (c0 : List Char) (rest : List Char)
    (prev : Option Char) (rows : List (List (List Char)))
    (hne : ¬(c0 = [] ∧ cells = [])) :
    scanAux (csvLineL (c0 :: cells) ++ '\r' :: '\n' :: rest) prev false [] [] rows
      = scanAux rest (some '\n') false [] [] (rows ++ [c0 :: cells]) := by
  rw [line_scan cells c0 _ prev [] [] rows (by simp), scanAux_cr, scanAux_lf_after_cr]
  simp only [List.nil_append]
  rw [cellsAcc_spec, if_pos (keepRow_cons c0 cells hne)]

lemma rows_scan (rs : List (List (List Char))) (rows : List (List (List Char)))
    (prev : Option Char) (hrs : ∀ r ∈ rs, r ≠ [] ∧ r ≠ [[]]) :
    scanAux (joinSepL ['\r', '\n'] (rs.map csvLineL)) prev false [] [] rows
      = rows ++ rs := by
  induction rs generalizing prev rows with
  | nil => simp [scanAux, joinSepL]
  | cons r rs' ih =>
    obtain ⟨hne, hne1⟩ := hrs r (List.mem_cons_self r rs')
    obtain ⟨c0, cells, rfl⟩ : ∃ c0 cells, r = c0 :: cells := by
      cases r with
      | nil => exact absurd rfl hne
      | cons c0 cells => exact ⟨c0, cells, rfl⟩
    have hone : ¬(c0 = [] ∧ cells = []) := by
      intro ⟨h1, h2⟩
      exact hne1 (by rw [h1, h2])
    cases rs' with
    | nil =>
      rw [show joinSepL ['\r', '\n'] ([c0 :: cells].map csvLineL)
          = csvLineL (c0 :: cells) ++ [] from by simp [joinSepL],
        line_scan cells c0 [] prev [] [] rows (by simp)]
      have hcond : (cellsAcc c0 cells).2 ≠ [] ∨ [] ++ (cellsAcc c0 cells).1 ≠ [] := by
        cases cells with
        | nil =>
          have hc0 : c0 ≠ [] := fun h => hone ⟨h, rfl⟩
          exact Or.inl (by simpa [cellsAcc] using hc0)
        | cons d ds => exact Or.inr (by simp [cellsAcc])
      show (if (cellsAcc c0 cells).2 ≠ [] ∨ [] ++ (cellsAcc c0 cells).1 ≠ []
          then rows ++ [[] ++ (cellsAcc c0 cells).1 ++ [(cellsAcc c0 cells).2]]
          else rows) = rows ++ [c0 :: cells]
      rw [if_pos hcond]
      simp only [List.nil_append]
      rw [cellsAcc_spec]
    | cons r2 rs2 =>
      rw [show joinSepL ['\r', '\n'] (((c0 :: cells) :: r2 :: rs2).map csvLineL)
          = csvLineL (c0 :: cells) ++ '\r' :: '\n'
            :: joinSepL ['\r', '\n'] ((r2 :: rs2).map csvLineL) from by
          show csvLineL (c0 :: cells) ++ ['\r', '\n']
              ++ joinSepL ['\r', '\n'] (csvLineL r2 :: rs2.map csvLineL) = _
          simp,
        row_scan_crlf cells c0 _ prev rows hone,
        ih (rows ++ [c0 :: cells]) (some '\n')
          (fun x hx => hrs x (List.mem_cons_of_mem _ hx))]
      simp

lemma enumFrom_mkRecord (headers : List String) (cols : List (List Char))
    (n : Nat) (hlen : n + headers.length ≤ cols.length) :
    (List.enumFrom n headers).map
        (fun p => (p.2, strOf (cleanFieldL (cols.getD p.1 []))))
      = headers.zip ((cols.drop n).map (fun c => strOf (cleanFieldL c))) := by
  induction headers generalizing n with
  | nil => simp
  | cons h hs ih =>
    have hn : n < cols.length := by
      simp only [List.length_cons] at hlen
      omega
    rw [List.enumFrom, List.map_cons,
      ih (n + 1) (by simp only [List.length_cons] at hlen ⊢; omega),
      List.drop_eq_getElem_cons hn, List.map_cons, List.zip_cons_cons,
      List.getD_eq_getElem cols [] hn]

lemma mkRecord_eq_zip (headers : List String) (cols : List (List Char))
    (hlen : headers.length ≤ cols.length) :
    mkRecord headers cols
      = headers.zip (cols.map (fun c => strOf (cleanFieldL c))) := by
  unfold mkRecord
  rw [show headers.enum = List.enumFrom 0 headers from rfl,
    enumFrom_mkRecord headers cols 0 (by omega), List.drop_zero]

/-- C2, amended: for a table whose every cell is unchanged by the cell
cleaning of `parseCsv` (no leading/trailing whitespace and no leading or
trailing double quote), whose data rows have exactly as many cells as the
header, and none of whose rows is a lone empty cell, parsing the RFC4180
serialization reconstructs exactly the original cell values of every
record, keyed by the header cells.  Cells may contain commas, inner double
quotes and embedded CR/LF freely. -/
theorem claim_C2_amended (hdr : List String) (rows : List (List String))
    (hclean : ∀ r ∈ hdr :: rows, ∀ cell ∈ r, cleanField cell = cell)
    (hlen : ∀ r ∈ rows, r.length = hdr.length)
    (hrow : ∀ r ∈ hdr :: rows, r ≠ [] ∧ r ≠ [""]) :
    parseCsv (rfc4180 (hdr :: rows)) = rows.map (fun r => hdr.zip r) := by
  have hscan : csvRows (rfc4180 (hdr :: rows))
      = ((hdr :: rows).map (fun r => r.map String.data)).map id := by
    unfold csvRows rfc4180
    rw [show (strOf (joinSepL ['\r', '\n']
          ((hdr :: rows).map (fun r => csvLineL (r.map String.data))))).data
        = joinSepL ['\r', '\n']
          (((hdr :: rows).map (fun r => r.map String.data)).map csvLineL) from by
      rw [List.map_map]; rfl]
    rw [List.map_id]
    apply rows_scan
    intro r hr
    simp only [List.mem_map] at hr
    obtain ⟨t, ht, rfl⟩ := hr
    obtain ⟨ht1, ht2⟩ := hrow t ht
    refine ⟨by simpa using ht1, ?_⟩
    intro hcon
    rcases List.map_eq_cons_iff.mp hcon with ⟨a, as, rfl, ha, has⟩
    exact ht2 (by
      rw [List.map_eq_nil_iff] at has
      rw [has, (data_eq_nil_iff a).mp ha])
  rw [List.map_id] at hscan
  unfold parseCsv
  rw [hscan]
  simp only [List.map_cons]
  show (rows.map (fun r => r.map String.data)).map
      (fun cols => mkRecord ((hdr.map String.data).map
        (fun h => strOf (cleanFieldL h))) cols) = _
  have hhdr : (hdr.map String.data).map (fun h => strOf (cleanFieldL h)) = hdr := by
    rw [List.map_map]
    have : ∀ h ∈ hdr, strOf (cleanFieldL (String.data h)) = h :=
      fun h hh => hclean hdr (List.mem_cons_self _ _) h hh
    calc hdr.map ((fun h => strOf (cleanFieldL h)) ∘ String.data)
        = hdr.map id := List.map_congr_left (fun a ha => this a ha)
      _ = hdr := List.map_id hdr
  rw [hhdr, List.map_map]
  apply List.map_congr_left
  intro r hr
  show mkRecord hdr (r.map String.data) = hdr.zip r
  rw [mkRecord_eq_zip hdr (r.map String.data)
    (by rw [List.length_map, hlen r hr]), List.map_map]
  congr 1
  calc r.map ((fun c => strOf (cleanFieldL c)) ∘ String.data)
      = r.map id := List.map_congr_left
        (fun cell hc => hclean r (List.mem_cons_of_mem _ hr) cell hc)
    _ = r := List.map_id r

/-- Witness for the amended C2: a table whose cells contain a comma, an
inner double quote and an embedded newline. -/
theorem claim_C2_amended_witness :
    parseCsv (rfc4180 [["名前", "メモ"], ["あ,い", "x\"y\nz"]])
      = [[("名前", "あ,い"), ("メモ", "x\"y\nz")]] := by
  rw [claim_C2_amended ["名前", "メモ"] [["あ,い", "x\"y\nz"]]
    (by decide) (by decide) (by decide)]
  decide

/-- C2, counterexample to the claim as stated: the single-cell table with
cell value `" a "` round-trips to `"a"` — `parseCsv` trims every cell, so
it does not reconstruct the exact original cell values. -/
theorem claim_C2_counterexample :
    parseCsv (rfc4180 [["h"], [" a "]]) = [[("h", "a")]] ∧ ("a" : String) ≠ " a " := by
  exact ⟨by decide, by decide⟩

end ToyamaChat
